import Mathlib

/-!
Verification of the image decomposition pipeline of figma-smart-image-mcp:
the tile-grid generator (`src/dist/image/tiles.js`), the size-constrained
encoder search (`ImageEncoder.prototype.encodeToFit` in `tiles.js` and
`ImageEncoder.encodeToFit` in `encode.js`), and the heuristic crop planner
(`ImageCropper` in `crops.js`).

Pixel quantities are modelled as `Int` (JavaScript numbers holding integer
values); fractional JavaScript arithmetic (`Math.ceil` of a quotient,
`Math.round` of a scaled value) is modelled exactly over `ℚ`, with the
float literals `0.2`, `0.5`, … read as the exact rationals they denote.
-/

namespace FigmaSmartImage

/-- JavaScript `Math.round` on an exact rational: round half toward positive
infinity, `⌊q + 1/2⌋`. -/
def jsRound (q : ℚ) : Int := ⌊q + (1 : ℚ) / 2⌋

/-- JavaScript `Math.ceil` of an exact rational quotient `a / b`. -/
def jsCeilDiv (a b : Int) : Int := ⌈(a : ℚ) / (b : ℚ)⌉

/-- Grid stride from `tiles.js` line 33: `stride = tilePx - overlapPx`. -/
def stride (tilePx overlapPx : Int) : Int := tilePx - overlapPx

/-- Column count from `tiles.js` line 35:
`cols = Math.ceil((imageWidth - overlapPx) / stride)`. -/
def gridCols (imageWidth tilePx overlapPx : Int) : Int :=
  jsCeilDiv (imageWidth - overlapPx) (stride tilePx overlapPx)

/-- Row count from `tiles.js` line 36:
`rows = Math.ceil((imageHeight - overlapPx) / stride)`. -/
def gridRows (imageHeight tilePx overlapPx : Int) : Int :=
  jsCeilDiv (imageHeight - overlapPx) (stride tilePx overlapPx)

/-- One tile of the grid: its grid coordinates (which appear in the output
filename `tile_<row>_<col>`) and its source region `(x, y, w, h)`. -/
structure Tile where
  row : Nat
  col : Nat
  x : Int
  y : Int
  w : Int
  h : Int
deriving DecidableEq

/-- The `x` origin of the tile in column `c` (`tiles.js` lines 42 and 52–54):
nominal origin `c·stride`, re-anchored to `max(0, L - tilePx)` for the last
column when `cols > 1`.  The `y` origin (lines 43 and 55–57) is the same
formula along the other axis. -/
def tileOrigin (L tilePx overlapPx : Int) (c : Nat) : Int :=
  if (c : Int) = gridCols L tilePx overlapPx - 1 ∧ 1 < gridCols L tilePx overlapPx
  then max 0 (L - tilePx)
  else (c : Int) * stride tilePx overlapPx

/-- The width of the tile in column `c` (`tiles.js` lines 45–47): computed at
the nominal origin `c·stride` (before the re-anchoring of `tileOrigin`),
`L - c·stride` in the last column and `min(tilePx, L - c·stride)` otherwise.
The height (lines 48–50) is the same formula along the other axis. -/
def tileExtent (L tilePx overlapPx : Int) (c : Nat) : Int :=
  if (c : Int) = gridCols L tilePx overlapPx - 1
  then L - (c : Int) * stride tilePx overlapPx
  else min tilePx (L - (c : Int) * stride tilePx overlapPx)

/-- Body of the double loop of `generateTiles` (`tiles.js` lines 41–57) for
grid cell `(row, col)`; `gridRows H = gridCols H` definitionally, so the
`y`/`h` components reuse `tileOrigin`/`tileExtent` along the height axis.
`Math.round` on these already-integral values is the identity and is omitted. -/
def tileAt (imageWidth imageHeight tilePx overlapPx : Int) (row col : Nat) : Tile :=
  ⟨row, col,
   tileOrigin imageWidth tilePx overlapPx col,
   tileOrigin imageHeight tilePx overlapPx row,
   tileExtent imageWidth tilePx overlapPx col,
   tileExtent imageHeight tilePx overlapPx row⟩

/-- Tile-region geometry of `generateTiles` (`tiles.js` lines 31–83): the
row-major sequence of tile regions pushed by the double loop
(`row` outer ascending, `col` inner ascending). -/
def generateTiles (imageWidth imageHeight tilePx overlapPx : Int) : List Tile :=
  ((List.range (gridRows imageHeight tilePx overlapPx).toNat).map (fun row =>
    (List.range (gridCols imageWidth tilePx overlapPx).toNat).map (fun col =>
      tileAt imageWidth imageHeight tilePx overlapPx row col))).flatten

/-- Claim C1 as stated by the spec: in a grid with more than one column,
every last-column tile has `x = max(0, W - tilePx)` and width exactly
`tilePx` (symmetrically for the last row), while a grid of exactly one
column (row) keeps origin `0` and the naturally clipped size. -/
def lastColumnExactClaim (W H t o : Int) : Prop :=
  ∀ a ∈ generateTiles W H t o,
    (1 < gridCols W t o → (a.col : Int) = gridCols W t o - 1 →
       a.x = max 0 (W - t) ∧ a.w = t) ∧
    (1 < gridRows H t o → (a.row : Int) = gridRows H t o - 1 →
       a.y = max 0 (H - t) ∧ a.h = t) ∧
    (gridCols W t o = 1 → a.x = 0 ∧ a.w = min t W) ∧
    (gridRows H t o = 1 → a.y = 0 ∧ a.h = min t H)

/-- Claim C3 as stated by the spec: the tile count is `cols × rows` with
`cols = ceil((W - overlapPx) / stride)`, `rows = ceil((H - overlapPx) / stride)`,
and `cols` and `rows` are each at least 1. -/
def tileCountClaim (W H t o : Int) : Prop :=
  (generateTiles W H t o).length = (gridCols W t o).toNat * (gridRows H t o).toNat ∧
  1 ≤ gridCols W t o ∧ 1 ≤ gridRows H t o

/-! ### The size-constrained encoder search

`ImageEncoder.prototype.encodeToFit` (`tiles.js` lines 87–226) and the base
`ImageEncoder.encodeToFit` (`encode.js` lines 14–77) run the same
quality-then-scale search; they differ only in how a single encode attempt is
performed (region extraction).  A single attempt is abstracted as an oracle
`att : ℚ → Nat → Option EncAttempt` giving, for a scale factor and a quality
level, the byte size and reported dimensions of the written file, or `none`
when the attempt throws.  Besides the source's `bestResult` the model returns
the list of attempts the search performed, in order. -/

/-- Outcome of one successful encode attempt: byte size (`statSync(...).size`)
and the reported width/height of the attempt. -/
structure EncAttempt where
  bytes : Nat
  width : Int
  height : Int
deriving DecidableEq

/-- A `bestResult` record of `encodeToFit` (`tiles.js` lines 148–156), minus
the constant `path`/`format` fields. -/
structure EncResult where
  bytes : Nat
  width : Int
  height : Int
  quality : Nat
  scaleFactor : ℚ
deriving DecidableEq

/-- One performed attempt of the search: the scale factor and quality level it
used and its outcome (`none` models a thrown encode error). -/
structure AttemptRec where
  scale : ℚ
  quality : Nat
  outcome : Option EncAttempt
deriving DecidableEq

/-- The `result` record a successful attempt produces (`tiles.js` lines
148–156). -/
def AttemptRec.toRes (rec : AttemptRec) : Option EncResult :=
  rec.outcome.map (fun a => ⟨a.bytes, a.width, a.height, rec.quality, rec.scale⟩)

/-- The quality ladder of `tiles.js` line 119 / `encode.js` line 35. -/
def qualityLevels : List Nat :=
  [95, 90, 85, 80, 75, 70, 65, 60, 55, 50, 45, 40, 35, 30, 25, 20]

/-- The scale-factor ladder of `tiles.js` line 169 / `encode.js` line 52,
float literals read as exact rationals. -/
def scaleLadder : List ℚ :=
  [9/10, 8/10, 7/10, 6/10, 5/10, 4/10, 3/10, 25/100, 2/10]

/-- The test `bestResult && bestResult.bytes <= maxBytes`. -/
def meetsBudget (best : Option EncResult) (maxBytes : Nat) : Bool :=
  match best with
  | some r => decide (r.bytes ≤ maxBytes)
  | none => false

/-- The inner quality loop (`tiles.js` lines 120–166): walk the quality
ladder; a successful attempt unconditionally overwrites `bestResult` and the
loop stops early when it meets the budget; a thrown attempt breaks the loop,
keeping the best so far.  Returns the final `bestResult` together with the
attempts performed. -/
def qualityPhase (att : ℚ → Nat → Option EncAttempt) (maxBytes : Nat) (sf : ℚ) :
    List Nat → Option EncResult → Option EncResult × List AttemptRec
  | [], best => (best, [])
  | q :: qs, best =>
    match att sf q with
    | none => (best, [⟨sf, q, none⟩])
    | some a =>
      if a.bytes ≤ maxBytes then
        (some ⟨a.bytes, a.width, a.height, q, sf⟩, [⟨sf, q, some a⟩])
      else
        let rest := qualityPhase att maxBytes sf qs (some ⟨a.bytes, a.width, a.height, q, sf⟩)
        (rest.1, ⟨sf, q, some a⟩ :: rest.2)

/-- The outer scale loop (`tiles.js` lines 168–220): for each ladder
candidate, lower the scale monotonically (`scaleFactor = Math.min(scaleFactor,
newScaleFactor)`), rerun the full quality ladder, and stop once the best
meets the budget. -/
def scalePhase (att : ℚ → Nat → Option EncAttempt) (maxBytes : Nat) :
    List ℚ → ℚ → Option EncResult → Option EncResult × List AttemptRec
  | [], _, best => (best, [])
  | cand :: cands, sf, best =>
    let sf' := min sf cand
    let inner := qualityPhase att maxBytes sf' qualityLevels best
    if meetsBudget inner.1 maxBytes then inner
    else
      let rest := scalePhase att maxBytes cands sf' inner.1
      (rest.1, inner.2 ++ rest.2)

/-- Initial scale factor (`tiles.js` lines 110–111):
`longEdge > maxLongEdge ? maxLongEdge / longEdge : 1`. -/
def initialScale (maxLongEdge originalWidth originalHeight : Int) : ℚ :=
  if maxLongEdge < max originalWidth originalHeight
  then (maxLongEdge : ℚ) / ((max originalWidth originalHeight : Int) : ℚ)
  else 1

/-- The full quality-then-scale search of `encodeToFit`: the scale phase runs
only when the quality phase did not meet the budget (`tiles.js` line 168). -/
def encodeToFitSearch (att : ℚ → Nat → Option EncAttempt) (maxBytes : Nat)
    (sf0 : ℚ) : Option EncResult × List AttemptRec :=
  let p1 := qualityPhase att maxBytes sf0 qualityLevels none
  if meetsBudget p1.1 maxBytes then p1
  else
    let p2 := scalePhase att maxBytes scaleLadder sf0 p1.1
    (p2.1, p1.2 ++ p2.2)

/-- The value `encodeToFit` returns; `none` models the final
`throw new Error("Failed to encode image ...")` (`tiles.js` lines 222–224). -/
def encodeToFit (att : ℚ → Nat → Option EncAttempt) (maxBytes : Nat)
    (maxLongEdge originalWidth originalHeight : Int) : Option EncResult :=
  (encodeToFitSearch att maxBytes (initialScale maxLongEdge originalWidth originalHeight)).1

/-- The sequence of attempts one `encodeToFit` call performs, in order. -/
def encodeToFitAttempts (att : ℚ → Nat → Option EncAttempt) (maxBytes : Nat)
    (maxLongEdge originalWidth originalHeight : Int) : List AttemptRec :=
  (encodeToFitSearch att maxBytes (initialScale maxLongEdge originalWidth originalHeight)).2

/-- The record of the most recent successful attempt in a list, starting from
a previously recorded best. -/
def lastSuccess : Option EncResult → List AttemptRec → Option EncResult
  | b, [] => b
  | b, rec :: l =>
    match rec.toRes with
    | some r => lastSuccess (some r) l
    | none => lastSuccess b l

/-- Claim C2 as stated by the spec: whenever `encodeToFit` returns an
artifact, its byte size is minimal among all successful attempts the call
performed (an attempt never overwrites a smaller-or-equal recorded result). -/
def smallestResultClaim (att : ℚ → Nat → Option EncAttempt) (maxBytes : Nat)
    (maxLongEdge originalWidth originalHeight : Int) : Prop :=
  ∀ r, encodeToFit att maxBytes maxLongEdge originalWidth originalHeight = some r →
    ∀ rec ∈ encodeToFitAttempts att maxBytes maxLongEdge originalWidth originalHeight,
      ∀ a, rec.outcome = some a → r.bytes ≤ a.bytes

/-- Oracle for the C2 counterexample: at full scale, quality 95 produces a
10-byte file and quality 90 a 20-byte file; every other attempt throws. -/
def cexAtt : ℚ → Nat → Option EncAttempt := fun sf q =>
  if sf = 1 ∧ q = 95 then some ⟨10, 1, 1⟩
  else if sf = 1 ∧ q = 90 then some ⟨20, 1, 1⟩
  else none

/-! ### The heuristic crop planner (`crops.js`) -/

/-- One named crop region of the heuristic table (`crops.js` records
`{name, x, y, w, h}`). -/
structure CropRegion where
  name : String
  x : Int
  y : Int
  w : Int
  h : Int
deriving DecidableEq

/-- `ImageCropper.generateCropRegions` (`crops.js` lines 111–212): returns
the heuristic regions in push order.  Each `Math.round(v * f)` is modelled as
`jsRound` of the exact rational product; each guard `size >= minSize * 0.5`
as the exact rational comparison. -/
def generateCropRegions (width height minSize : Int) : List CropRegion :=
  if width < minSize ∨ height < minSize then []
  else
    let isLandscape := height < width
    let headerHeight := min (jsRound ((height : ℚ) * (1/5))) minSize
    let topLeftSize := min minSize (jsRound ((width : ℚ) * (2/5)))
    let topRightSize := min minSize (jsRound ((width : ℚ) * (2/5)))
    let centerSize := min minSize (jsRound (((min width height : Int) : ℚ) * (3/5)))
    let centerX := jsRound (((width - centerSize : Int) : ℚ) / 2)
    let centerY := jsRound (((height - centerSize : Int) : ℚ) / 2)
    let footerHeight := min (jsRound ((height : ℚ) * (1/4))) minSize
    let footerY := height - footerHeight
    let bottomRightSize := min minSize (jsRound ((width : ℚ) * (3/10)))
    let sideWidth := min minSize (jsRound ((width : ℚ) * (3/10)))
    (if (minSize : ℚ) * (1/2) ≤ (headerHeight : ℚ) then
      [⟨"header", 0, 0, width, headerHeight⟩] else []) ++
    (if (minSize : ℚ) * (1/2) ≤ (topLeftSize : ℚ) then
      [⟨"top_left", 0, 0, topLeftSize, topLeftSize⟩] else []) ++
    (if (minSize : ℚ) * (1/2) ≤ (topRightSize : ℚ) then
      [⟨"top_right", width - topRightSize, 0, topRightSize, topRightSize⟩] else []) ++
    (if (minSize : ℚ) * (1/2) ≤ (centerSize : ℚ) then
      [⟨"center", centerX, centerY, centerSize, centerSize⟩] else []) ++
    (if (minSize : ℚ) * (1/2) ≤ (footerHeight : ℚ) then
      [⟨"footer", 0, footerY, width, footerHeight⟩] else []) ++
    (if (minSize : ℚ) * (1/2) ≤ (bottomRightSize : ℚ) ∧ isLandscape then
      [⟨"bottom_right", width - bottomRightSize, height - bottomRightSize,
        bottomRightSize, bottomRightSize⟩] else []) ++
    (if isLandscape ∧ (minSize : ℚ) * (3/2) ≤ (width : ℚ) then
      [⟨"left_edge", 0, 0, sideWidth, height⟩] else []) ++
    (if isLandscape ∧ (minSize : ℚ) * (3/2) ≤ (width : ℚ) then
      [⟨"right_edge", width - sideWidth, 0, sideWidth, height⟩] else [])

/-- The spec's inclusion guard: the computed size in the constraining
dimension is at least `minCropSize × 0.5`. -/
def specSizeOk (m size : Int) : Bool := decide ((m : ℚ) * (1/2) ≤ (size : ℚ))

/-- One row of the spec's declarative heuristic region table: an inclusion
predicate and a geometry function of `(width, height, minCropSize)`. -/
structure CropRule where
  title : String
  applies : Int → Int → Int → Bool
  geom : Int → Int → Int → CropRegion

/-- Modelled from the spec and claim C7's wording: the fixed heuristic table
with the claimed inclusion rules — every region (left_edge and right_edge
included) is subject to the `≥ minCropSize × 0.5` size guard; bottom_right
requires landscape; left_edge and right_edge require landscape and
`W ≥ 1.5 · minCropSize`. -/
def specCropTableClaimed : List CropRule :=
  [⟨"header",
    fun _ h m => specSizeOk m (min (jsRound ((h : ℚ) * (1/5))) m),
    fun w h m => ⟨"header", 0, 0, w, min (jsRound ((h : ℚ) * (1/5))) m⟩⟩,
   ⟨"top_left",
    fun w _ m => specSizeOk m (min m (jsRound ((w : ℚ) * (2/5)))),
    fun w _ m => ⟨"top_left", 0, 0, min m (jsRound ((w : ℚ) * (2/5))),
      min m (jsRound ((w : ℚ) * (2/5)))⟩⟩,
   ⟨"top_right",
    fun w _ m => specSizeOk m (min m (jsRound ((w : ℚ) * (2/5)))),
    fun w _ m => ⟨"top_right", w - min m (jsRound ((w : ℚ) * (2/5))), 0,
      min m (jsRound ((w : ℚ) * (2/5))), min m (jsRound ((w : ℚ) * (2/5)))⟩⟩,
   ⟨"center",
    fun w h m => specSizeOk m (min m (jsRound (((min w h : Int) : ℚ) * (3/5)))),
    fun w h m => ⟨"center",
      jsRound (((w - min m (jsRound (((min w h : Int) : ℚ) * (3/5))) : Int) : ℚ) / 2),
      jsRound (((h - min m (jsRound (((min w h : Int) : ℚ) * (3/5))) : Int) : ℚ) / 2),
      min m (jsRound (((min w h : Int) : ℚ) * (3/5))),
      min m (jsRound (((min w h : Int) : ℚ) * (3/5)))⟩⟩,
   ⟨"footer",
    fun _ h m => specSizeOk m (min (jsRound ((h : ℚ) * (1/4))) m),
    fun w h m => ⟨"footer", 0, h - min (jsRound ((h : ℚ) * (1/4))) m, w,
      min (jsRound ((h : ℚ) * (1/4))) m⟩⟩,
   ⟨"bottom_right",
    fun w h m => specSizeOk m (min m (jsRound ((w : ℚ) * (3/10)))) && decide (h < w),
    fun w h m => ⟨"bottom_right", w - min m (jsRound ((w : ℚ) * (3/10))),
      h - min m (jsRound ((w : ℚ) * (3/10))), min m (jsRound ((w : ℚ) * (3/10))),
      min m (jsRound ((w : ℚ) * (3/10)))⟩⟩,
   ⟨"left_edge",
    fun w h m => decide (h < w) && decide ((m : ℚ) * (3/2) ≤ (w : ℚ)) &&
      specSizeOk m (min m (jsRound ((w : ℚ) * (3/10)))),
    fun w h m => ⟨"left_edge", 0, 0, min m (jsRound ((w : ℚ) * (3/10))), h⟩⟩,
   ⟨"right_edge",
    fun w h m => decide (h < w) && decide ((m : ℚ) * (3/2) ≤ (w : ℚ)) &&
      specSizeOk m (min m (jsRound ((w : ℚ) * (3/10)))),
    fun w h m => ⟨"right_edge", w - min m (jsRound ((w : ℚ) * (3/10))), 0,
      min m (jsRound ((w : ℚ) * (3/10))), h⟩⟩]

/-- The same declarative table with the inclusion rules the code actually
implements: left_edge and right_edge are gated only by landscape and
`W ≥ 1.5 · minCropSize`, with no size guard. -/
def specCropTableAmended : List CropRule :=
  [⟨"header",
    fun _ h m => specSizeOk m (min (jsRound ((h : ℚ) * (1/5))) m),
    fun w h m => ⟨"header", 0, 0, w, min (jsRound ((h : ℚ) * (1/5))) m⟩⟩,
   ⟨"top_left",
    fun w _ m => specSizeOk m (min m (jsRound ((w : ℚ) * (2/5)))),
    fun w _ m => ⟨"top_left", 0, 0, min m (jsRound ((w : ℚ) * (2/5))),
      min m (jsRound ((w : ℚ) * (2/5)))⟩⟩,
   ⟨"top_right",
    fun w _ m => specSizeOk m (min m (jsRound ((w : ℚ) * (2/5)))),
    fun w _ m => ⟨"top_right", w - min m (jsRound ((w : ℚ) * (2/5))), 0,
      min m (jsRound ((w : ℚ) * (2/5))), min m (jsRound ((w : ℚ) * (2/5)))⟩⟩,
   ⟨"center",
    fun w h m => specSizeOk m (min m (jsRound (((min w h : Int) : ℚ) * (3/5)))),
    fun w h m => ⟨"center",
      jsRound (((w - min m (jsRound (((min w h : Int) : ℚ) * (3/5))) : Int) : ℚ) / 2),
      jsRound (((h - min m (jsRound (((min w h : Int) : ℚ) * (3/5))) : Int) : ℚ) / 2),
      min m (jsRound (((min w h : Int) : ℚ) * (3/5))),
      min m (jsRound (((min w h : Int) : ℚ) * (3/5)))⟩⟩,
   ⟨"footer",
    fun _ h m => specSizeOk m (min (jsRound ((h : ℚ) * (1/4))) m),
    fun w h m => ⟨"footer", 0, h - min (jsRound ((h : ℚ) * (1/4))) m, w,
      min (jsRound ((h : ℚ) * (1/4))) m⟩⟩,
   ⟨"bottom_right",
    fun w h m => specSizeOk m (min m (jsRound ((w : ℚ) * (3/10)))) && decide (h < w),
    fun w h m => ⟨"bottom_right", w - min m (jsRound ((w : ℚ) * (3/10))),
      h - min m (jsRound ((w : ℚ) * (3/10))), min m (jsRound ((w : ℚ) * (3/10))),
      min m (jsRound ((w : ℚ) * (3/10)))⟩⟩,
   ⟨"left_edge",
    fun w h m => decide (h < w) && decide ((m : ℚ) * (3/2) ≤ (w : ℚ)),
    fun w h m => ⟨"left_edge", 0, 0, min m (jsRound ((w : ℚ) * (3/10))), h⟩⟩,
   ⟨"right_edge",
    fun w h m => decide (h < w) && decide ((m : ℚ) * (3/2) ≤ (w : ℚ)),
    fun w h m => ⟨"right_edge", w - min m (jsRound ((w : ℚ) * (3/10))), 0,
      min m (jsRound ((w : ℚ) * (3/10))), h⟩⟩]

/-- The region list a declarative table yields: empty for a too-small image,
otherwise the table filtered by its inclusion predicates, in table order. -/
def specCropsFiltered (table : List CropRule) (width height minSize : Int) :
    List CropRegion :=
  if width < minSize ∨ height < minSize then []
  else (table.filter (fun rule => rule.applies width height minSize)).map
    (fun rule => rule.geom width height minSize)

/-- Claim C7 as stated: for every image at least `minCropSize` in both
dimensions, the crop planner's region list equals the claimed table filtered
by the claimed inclusion rules, in table order. -/
def cropTableClaim : Prop :=
  ∀ w h m : Int, m ≤ w → m ≤ h →
    generateCropRegions w h m = specCropsFiltered specCropTableClaimed w h m

/-- Does an `Except` hold a value? -/
def exceptOk {ε α : Type} : Except ε α → Bool
  | .ok _ => true
  | .error _ => false

/-- The encode loop of `ImageTiler.generateTiles` (`tiles.js` lines 58–82):
each tile region is encoded in order with no `try`/`catch`, so the first
thrown error aborts the whole loop and propagates; otherwise the encoded
tiles are collected in order.  The encoder is abstracted as
`enc : Tile → Except ε α`. -/
def encodeTilesLoop {ε α : Type} (enc : Tile → Except ε α) :
    List Tile → Except ε (List (Tile × α))
  | [] => Except.ok []
  | tile :: rest =>
    match enc tile with
    | .error e => .error e
    | .ok a =>
      match encodeTilesLoop enc rest with
      | .error e => .error e
      | .ok tl => .ok ((tile, a) :: tl)

/-- `generateTiles` with the encoder: the tile grid's regions encoded
sequentially, errors propagating. -/
def generateTilesE {ε α : Type} (enc : Tile → Except ε α) (W H t o : Int) :
    Except ε (List (Tile × α)) :=
  encodeTilesLoop enc (generateTiles W H t o)

/-- Lowercase a-z or 0-9? -/
def isLowerAlnum (c : Char) : Bool := c.isLower || c.isDigit

/-- Collapse runs of non-alphanumeric characters into single underscores
(the `replace(/[^a-z0-9]+/g, "_")` of `crops.js` line 217); the flag records
whether the previous character was part of such a run. -/
def sanitizeGo : Bool → List Char → List Char
  | _, [] => []
  | prevSep, c :: cs =>
    if isLowerAlnum c then c :: sanitizeGo false cs
    else if prevSep then sanitizeGo true cs
    else '_' :: sanitizeGo true cs

/-- `ImageCropper.sanitizeName` (`crops.js` lines 216–218). -/
def sanitizeName (s : String) : String :=
  ⟨sanitizeGo false (s.data.map Char.toLower)⟩

/-- The crop output filename `crop_<index>_<sanitizedName>.<ext>`
(`crops.js` line 76). -/
def cropFileName (idx : Nat) (name : String) (ext : String) : String :=
  "crop_" ++ toString idx ++ "_" ++ sanitizeName name ++ "." ++ ext

/-- One produced crop: the numeral `idx` embedded in its filename, the
filename itself, the region, and the encoder's result. -/
structure Crop (α : Type) where
  idx : Nat
  path : String
  region : CropRegion
  encoded : α

/-- The encode loop of `ImageCropper.generateCrops` (`crops.js` lines 70–105):
`cropIndex` starts at 0; the output path is built from the current index
before encoding; a successful encode pushes the crop and increments the
index; a failed encode logs a warning, drops the region and leaves the index
unchanged. -/
def generateCropsLoop {ε α : Type} (enc : CropRegion → Except ε α) (ext : String) :
    List CropRegion → Nat → List (Crop α)
  | [], _ => []
  | r :: rs, idx =>
    match enc r with
    | .ok a => ⟨idx, cropFileName idx r.name ext, r, a⟩ ::
        generateCropsLoop enc ext rs (idx + 1)
    | .error _ => generateCropsLoop enc ext rs idx

/-- `ImageCropper.generateCrops`: run the encode loop over the heuristic
regions of the image. -/
def generateCrops {ε α : Type} (enc : CropRegion → Except ε α) (ext : String)
    (width height minSize : Int) : List (Crop α) :=
  generateCropsLoop enc ext (generateCropRegions width height minSize) 0

/-! ### The sharp pipeline of one encode attempt (`tiles.js` lines 95–156)

`metadata()` on a sharp pipeline reads the header of the *input* image; the
operations queued on the pipeline (extract, resize) are not applied to what
it reports — that is sharp's documented behaviour.  `toFile` writes the image
with the queued operations applied. -/

/-- An input image, identified by its header dimensions. -/
structure SharpImage where
  width : Int
  height : Int
deriving DecidableEq

/-- A sharp pipeline: the input plus the queued `extract` region
`(left, top, width, height)` and `resize` target, if any. -/
structure SharpPipeline where
  input : SharpImage
  extractRegion : Option (Int × Int × Int × Int)
  resizeTo : Option (Int × Int)
deriving DecidableEq

/-- Model of sharp's `metadata()`: the input image's header dimensions,
ignoring the pipeline's queued operations. -/
def SharpPipeline.metadataDims (p : SharpPipeline) : Int × Int :=
  (p.input.width, p.input.height)

/-- Dimensions of the file `toFile` writes: extraction then resize applied. -/
def SharpPipeline.outputDims (p : SharpPipeline) : Int × Int :=
  match p.resizeTo with
  | some wh => wh
  | none =>
    match p.extractRegion with
    | some (_, _, w, h) => (w, h)
    | none => (p.input.width, p.input.height)

/-- The `originalWidth`/`originalHeight` of `tiles.js` lines 106–108: read
via `metadata()` from the pipeline that has the extract queued. -/
def originalDims (img : SharpImage) (region : Option (Int × Int × Int × Int)) :
    Int × Int :=
  (SharpPipeline.mk img region none).metadataDims

/-- The encode pipeline of one attempt (`tiles.js` lines 122–135): extract
the region if given; resize to
`(round(originalWidth·scale), round(originalHeight·scale))` when the scale
factor is below 1. -/
def buildEncodePipeline (img : SharpImage) (region : Option (Int × Int × Int × Int))
    (originalWidth originalHeight : Int) (scaleFactor : ℚ) : SharpPipeline :=
  if scaleFactor < 1 then
    ⟨img, region, some (jsRound ((originalWidth : ℚ) * scaleFactor),
      jsRound ((originalHeight : ℚ) * scaleFactor))⟩
  else ⟨img, region, none⟩

/-- The width/height an attempt reports (`tiles.js` lines 142–144): read via
`metadata()` from the encode pipeline, before `toFile` is called. -/
def attemptReportedDims (img : SharpImage) (region : Option (Int × Int × Int × Int))
    (originalWidth originalHeight : Int) (scaleFactor : ℚ) : Int × Int :=
  (buildEncodePipeline img region originalWidth originalHeight scaleFactor).metadataDims

/-- The dimensions of the file the attempt actually writes (line 145). -/
def attemptWrittenDims (img : SharpImage) (region : Option (Int × Int × Int × Int))
    (originalWidth originalHeight : Int) (scaleFactor : ℚ) : Int × Int :=
  (buildEncodePipeline img region originalWidth originalHeight scaleFactor).outputDims

/-! ### Theorems -/

/-- Evaluation rule for `jsRound` at a concrete argument. -/
theorem jsRound_eval (q : ℚ) (z : Int) (h1 : (z : ℚ) ≤ q + 1 / 2)
    (h2 : q + 1 / 2 < (z : ℚ) + 1) : jsRound q = z := by
  rw [jsRound, Int.floor_eq_iff]
  exact ⟨h1, h2⟩

/-- Evaluation rule for `jsCeilDiv` at concrete arguments. -/
theorem jsCeilDiv_eval (a b z : Int) (h1 : (z : ℚ) - 1 < (a : ℚ) / (b : ℚ))
    (h2 : (a : ℚ) / (b : ℚ) ≤ (z : ℚ)) : jsCeilDiv a b = z := by
  rw [jsCeilDiv, Int.ceil_eq_iff]
  exact ⟨h1, h2⟩

/-- Membership in the generated tile list is exactly being the tile of some
in-range grid cell. -/
theorem mem_generateTiles {W H t o : Int} {a : Tile} :
    a ∈ generateTiles W H t o ↔
      ∃ r < (gridRows H t o).toNat, ∃ c < (gridCols W t o).toNat,
        a = tileAt W H t o r c := by
  simp only [generateTiles, List.mem_flatten, List.mem_map, List.mem_range]
  constructor
  · rintro ⟨l, ⟨r, hr, rfl⟩, hmem⟩
    obtain ⟨c, hc, hac⟩ := List.mem_map.mp hmem
    exact ⟨r, hr, c, List.mem_range.mp hc, hac.symm⟩
  · rintro ⟨r, hr, c, hc, rfl⟩
    exact ⟨_, ⟨r, hr, rfl⟩, List.mem_map.mpr ⟨c, List.mem_range.mpr hc, rfl⟩⟩

/-- The generated tile list has exactly `cols * rows` entries. -/
theorem length_generateTiles (W H t o : Int) :
    (generateTiles W H t o).length =
      (gridCols W t o).toNat * (gridRows H t o).toNat := by
  simp [generateTiles, List.length_flatten, Function.comp_def, Nat.mul_comm]

/-- `gridRows` is `gridCols` applied along the height axis. -/
theorem gridRows_eq_gridCols (L t o : Int) : gridRows L t o = gridCols L t o := rfl

/-- The whole span is covered: `L - o ≤ cols * stride`. -/
theorem le_gridCols_mul_stride {L t o : Int} (hot : o < t) :
    L - o ≤ gridCols L t o * stride t o := by
  have hs : (0 : ℚ) < ((stride t o : Int) : ℚ) := by
    have : (0 : Int) < stride t o := by simp only [stride]; omega
    exact_mod_cast this
  have h := Int.le_ceil (((L - o : Int) : ℚ) / ((stride t o : Int) : ℚ))
  rw [div_le_iff₀ hs] at h
  rw [gridCols, jsCeilDiv]
  exact_mod_cast h

/-- One fewer column does not cover the span: `(cols - 1) * stride < L - o`. -/
theorem gridCols_pred_mul_stride_lt {L t o : Int} (hot : o < t) :
    (gridCols L t o - 1) * stride t o < L - o := by
  have hs : (0 : ℚ) < ((stride t o : Int) : ℚ) := by
    have : (0 : Int) < stride t o := by simp only [stride]; omega
    exact_mod_cast this
  have h : ((gridCols L t o - 1 : Int) : ℚ) <
      ((L - o : Int) : ℚ) / ((stride t o : Int) : ℚ) := by
    rw [← Int.lt_ceil]
    exact sub_one_lt _
  rw [lt_div_iff₀ hs] at h
  exact_mod_cast h

/-- There is at least one column as soon as the image is wider than the
overlap. -/
theorem one_le_gridCols {L t o : Int} (hot : o < t) (hoL : o < L) :
    1 ≤ gridCols L t o := by
  have hs : (0 : ℚ) < ((stride t o : Int) : ℚ) := by
    have : (0 : Int) < stride t o := by simp only [stride]; omega
    exact_mod_cast this
  have hL : (0 : ℚ) < ((L - o : Int) : ℚ) := by exact_mod_cast (by omega : (0:Int) < L - o)
  have : (0 : Int) < gridCols L t o := by
    rw [gridCols, jsCeilDiv, Int.lt_ceil]
    exact_mod_cast div_pos hL hs
  omega

/-- A one-column grid means the whole width fits in a single tile. -/
theorem le_of_gridCols_eq_one {L t o : Int} (hot : o < t)
    (h1 : gridCols L t o = 1) : L ≤ t := by
  have hs : (0 : ℚ) < ((stride t o : Int) : ℚ) := by
    have : (0 : Int) < stride t o := by simp only [stride]; omega
    exact_mod_cast this
  have h := Int.ceil_le.mp (le_of_eq (h1 : gridCols L t o = 1))
  rw [div_le_iff₀ hs] at h
  have : (L - o : Int) ≤ 1 * stride t o := by exact_mod_cast h
  simp only [stride] at this
  omega

/-- Every tile origin is nonnegative. -/
theorem tileOrigin_nonneg {L t o : Int} (hot : o < t) (c : Nat) :
    0 ≤ tileOrigin L t o c := by
  rw [tileOrigin]
  split
  · exact le_max_left _ _
  · exact mul_nonneg (Int.natCast_nonneg c) (by rw [stride]; omega)

/-- Every tile fits inside the image along its axis. -/
theorem tileOrigin_add_tileExtent_le {L t o : Int} (hot : o < t) (c : Nat) :
    tileOrigin L t o c + tileExtent L t o c ≤ L := by
  have hs : 0 < stride t o := by rw [stride]; omega
  rw [tileOrigin, tileExtent]
  by_cases hlast : (c : Int) = gridCols L t o - 1
  · rw [if_pos hlast]
    by_cases hone : 1 < gridCols L t o
    · rw [if_pos ⟨hlast, hone⟩, hlast]
      have hcov := le_gridCols_mul_stride (L := L) hot
      have heq : (gridCols L t o - 1) * stride t o =
          gridCols L t o * stride t o - stride t o := by ring
      have hst : stride t o = t - o := rfl
      have hub : L - t ≤ (gridCols L t o - 1) * stride t o := by
        linarith [hcov, heq, hst.ge, hst.le]
      have hnn : 0 ≤ (gridCols L t o - 1) * stride t o :=
        mul_nonneg (by omega) (by rw [stride]; omega)
      have := max_le hnn hub
      omega
    · rw [if_neg (fun hand => hone hand.2)]
      omega
  · rw [if_neg (fun hand => hlast hand.1), if_neg hlast]
    have := min_le_right t (L - (c : Int) * stride t o)
    omega

/-- The last column's re-anchored origin. -/
theorem tileOrigin_last {L t o : Int} {c : Nat}
    (hlast : (c : Int) = gridCols L t o - 1) (hone : 1 < gridCols L t o) :
    tileOrigin L t o c = max 0 (L - t) := by
  rw [tileOrigin, if_pos ⟨hlast, hone⟩]

/-- The last column's extent is the remainder at the nominal origin. -/
theorem tileExtent_last {L t o : Int} {c : Nat}
    (hlast : (c : Int) = gridCols L t o - 1) :
    tileExtent L t o c = L - (gridCols L t o - 1) * stride t o := by
  rw [tileExtent, if_pos hlast, hlast]

/-- The last column's extent is strictly larger than the overlap and at most
the tile size. -/
theorem tileExtent_last_bounds {L t o : Int} (hot : o < t) {c : Nat}
    (hlast : (c : Int) = gridCols L t o - 1) :
    o < tileExtent L t o c ∧ tileExtent L t o c ≤ t := by
  rw [tileExtent_last hlast]
  have h1 := gridCols_pred_mul_stride_lt (L := L) hot
  have h2 := le_gridCols_mul_stride (L := L) hot
  have heq : (gridCols L t o - 1) * stride t o =
      gridCols L t o * stride t o - stride t o := by ring
  have hst : stride t o = t - o := rfl
  constructor
  · omega
  · linarith [h2, heq, hst.ge, hst.le]

/-- In a one-column grid the single column has origin 0 and extent `L`. -/
theorem tile_single_column {L t o : Int} (h1 : gridCols L t o = 1) :
    tileOrigin L t o 0 = 0 ∧ tileExtent L t o 0 = L := by
  constructor
  · rw [tileOrigin, if_neg (fun hand => by omega)]
    ring
  · rw [tileExtent, if_pos (by omega)]
    ring

/-- A 100×50 image tiled at `tilePx = 64`, `overlapPx = 16` has two columns. -/
theorem gridCols_100_64_16 : gridCols 100 64 16 = 2 :=
  jsCeilDiv_eval (100 - 16) (stride 64 16) 2 (by norm_num [stride]) (by norm_num [stride])

/-- A 100×50 image tiled at `tilePx = 64`, `overlapPx = 16` has one row. -/
theorem gridCols_50_64_16 : gridCols 50 64 16 = 1 :=
  jsCeilDiv_eval (50 - 16) (stride 64 16) 1 (by norm_num [stride]) (by norm_num [stride])

/-- The second tile of the 100×50 example evaluated. -/
theorem tileAt_100_50_64_16_row0_col1 :
    tileAt 100 50 64 16 0 1 = ⟨0, 1, 36, 0, 52, 50⟩ := by
  simp only [tileAt, tileOrigin, tileExtent, gridCols_100_64_16, gridCols_50_64_16, stride]
  norm_num

/-- The second tile of the 100×50 example is produced by `generateTiles`. -/
theorem tile_mem_100_50_64_16 :
    (⟨0, 1, 36, 0, 52, 50⟩ : Tile) ∈ generateTiles 100 50 64 16 := by
  rw [mem_generateTiles]
  refine ⟨0, ?_, 1, ?_, tileAt_100_50_64_16_row0_col1.symm⟩
  · rw [gridRows_eq_gridCols, gridCols_50_64_16]
    decide
  · rw [gridCols_100_64_16]
    decide

/-- Counterexample to claim C1: for a 100×50 source with `tilePx = 64` and
`overlapPx = 16` the grid has 2 columns and the last-column tile is
`(x, y, w, h) = (36, 0, 52, 50)` — its `x` origin is re-anchored to
`max(0, 100 - 64) = 36` as claimed, but its width is `52`, not `tilePx = 64`:
the width is computed from the nominal origin before re-anchoring. -/
theorem claimC1_counterexample : ¬ lastColumnExactClaim 100 50 64 16 := by
  intro hcl
  have h := (hcl ⟨0, 1, 36, 0, 52, 50⟩ tile_mem_100_50_64_16).1
    (by rw [gridCols_100_64_16]; decide)
    (by rw [gridCols_100_64_16]; decide)
  exact absurd h.2 (by decide)

/-- Claim C1 amended: in a multi-column grid every last-column tile has its
`x` origin re-anchored to `max(0, W - tilePx)`, but its width is the clipped
remainder `W - (cols - 1)·stride` at the nominal origin, which exceeds
`overlapPx` and is at most `tilePx` (equal to `tilePx` only when `stride`
divides `W - overlapPx`); symmetrically for the last row; a one-column
(one-row) grid keeps origin 0 and natural size `W ≤ tilePx`. -/
theorem claimC1_amended (W H t o : Int) (hot : o < t) :
    ∀ a ∈ generateTiles W H t o,
      (1 < gridCols W t o → (a.col : Int) = gridCols W t o - 1 →
         a.x = max 0 (W - t) ∧ a.w = W - (gridCols W t o - 1) * stride t o ∧
         o < a.w ∧ a.w ≤ t) ∧
      (1 < gridRows H t o → (a.row : Int) = gridRows H t o - 1 →
         a.y = max 0 (H - t) ∧ a.h = H - (gridRows H t o - 1) * stride t o ∧
         o < a.h ∧ a.h ≤ t) ∧
      (gridCols W t o = 1 → a.x = 0 ∧ a.w = W ∧ W ≤ t) ∧
      (gridRows H t o = 1 → a.y = 0 ∧ a.h = H ∧ H ≤ t) := by
  intro a ha
  rw [mem_generateTiles] at ha
  obtain ⟨r, hr, c, hc, rfl⟩ := ha
  refine ⟨?_, ?_, ?_, ?_⟩
  · intro hone hlast
    have hlast' : (c : Int) = gridCols W t o - 1 := hlast
    exact ⟨tileOrigin_last hlast' hone, tileExtent_last hlast',
      (tileExtent_last_bounds hot hlast').1, (tileExtent_last_bounds hot hlast').2⟩
  · intro hone hlast
    have hlast' : (r : Int) = gridCols H t o - 1 := hlast
    exact ⟨tileOrigin_last hlast' hone, tileExtent_last hlast',
      (tileExtent_last_bounds hot hlast').1, (tileExtent_last_bounds hot hlast').2⟩
  · intro h1
    have hc0 : c = 0 := by rw [h1] at hc; omega
    subst hc0
    exact ⟨(tile_single_column h1).1, (tile_single_column h1).2,
      le_of_gridCols_eq_one hot h1⟩
  · intro h1
    have h1' : gridCols H t o = 1 := h1
    have hr0 : r = 0 := by rw [gridRows_eq_gridCols, h1'] at hr; omega
    subst hr0
    exact ⟨(tile_single_column h1').1, (tile_single_column h1').2,
      le_of_gridCols_eq_one hot h1'⟩

/-- Witness for the amended claim C1 at the 100×50 example. -/
theorem claimC1_amended_witness :
    (16 : Int) < 64 ∧
    ((1 < gridCols 100 64 16 → ((1 : Nat) : Int) = gridCols 100 64 16 - 1 →
        (36 : Int) = max 0 (100 - 64) ∧
        (52 : Int) = 100 - (gridCols 100 64 16 - 1) * stride 64 16 ∧
        (16 : Int) < 52 ∧ (52 : Int) ≤ 64) ∧
     (1 < gridRows 50 64 16 → ((0 : Nat) : Int) = gridRows 50 64 16 - 1 →
        (0 : Int) = max 0 (50 - 64) ∧
        (50 : Int) = 50 - (gridRows 50 64 16 - 1) * stride 64 16 ∧
        (16 : Int) < 50 ∧ (50 : Int) ≤ 64) ∧
     (gridCols 100 64 16 = 1 → (36 : Int) = 0 ∧ (52 : Int) = 100 ∧ (100 : Int) ≤ 64) ∧
     (gridRows 50 64 16 = 1 → (0 : Int) = 0 ∧ (50 : Int) = 50 ∧ (50 : Int) ≤ 64)) :=
  ⟨by decide,
   claimC1_amended 100 50 64 16 (by decide) ⟨0, 1, 36, 0, 52, 50⟩ tile_mem_100_50_64_16⟩

/-- Counterexample to claim C3: a 5×100 source with `tilePx = 20` and
`overlapPx = 10` is narrower than the overlap, so
`cols = ceil((5 - 10) / 10) = 0` — not "at least 1" — and the code produces
zero tiles. -/
theorem claimC3_counterexample : ¬ tileCountClaim 5 100 20 10 := by
  intro h
  have hc : gridCols 5 20 10 = 0 :=
    jsCeilDiv_eval (5 - 10) (stride 20 10) 0 (by norm_num [stride]) (by norm_num [stride])
  have := h.2.1
  omega

/-- Claim C3 amended: the tile count is exactly `cols × rows` with the claimed
ceiling formulas, and `cols ≥ 1`, `rows ≥ 1` hold provided the image is
strictly wider and taller than `overlapPx` (the code does not clamp the
counts to 1, so a dimension not exceeding the overlap yields zero tiles). -/
theorem claimC3_amended (W H t o : Int) (hot : o < t) (hoW : o < W) (hoH : o < H) :
    tileCountClaim W H t o := by
  refine ⟨length_generateTiles W H t o, one_le_gridCols hot hoW, ?_⟩
  rw [gridRows_eq_gridCols]
  exact one_le_gridCols hot hoH

/-- Witness for the amended claim C3 at the 100×50 example. -/
theorem claimC3_amended_witness :
    (16 : Int) < 64 ∧ (16 : Int) < 100 ∧ (16 : Int) < 50 ∧ tileCountClaim 100 50 64 16 :=
  ⟨by decide, by decide, by decide,
   claimC3_amended 100 50 64 16 (by decide) (by decide) (by decide)⟩

/-- Claim C4: every produced tile region lies inside the source image:
`0 ≤ x`, `x + w ≤ W`, `0 ≤ y`, `y + h ≤ H`. -/
theorem claimC4_inBounds (W H t o : Int) (hot : o < t) :
    ∀ a ∈ generateTiles W H t o,
      0 ≤ a.x ∧ a.x + a.w ≤ W ∧ 0 ≤ a.y ∧ a.y + a.h ≤ H := by
  intro a ha
  rw [mem_generateTiles] at ha
  obtain ⟨r, _, c, _, rfl⟩ := ha
  exact ⟨tileOrigin_nonneg hot c, tileOrigin_add_tileExtent_le hot c,
    tileOrigin_nonneg hot r, tileOrigin_add_tileExtent_le hot r⟩

/-- Witness for claim C4 at the 100×50 example's last tile. -/
theorem claimC4_inBounds_witness :
    (16 : Int) < 64 ∧
    ((0 : Int) ≤ 36 ∧ (36 : Int) + 52 ≤ 100 ∧ (0 : Int) ≤ 0 ∧ (0 : Int) + 50 ≤ 50) :=
  ⟨by decide,
   claimC4_inBounds 100 50 64 16 (by decide) ⟨0, 1, 36, 0, 52, 50⟩ tile_mem_100_50_64_16⟩

/-- `lastSuccess` over an appended log folds left to right. -/
theorem lastSuccess_append (b : Option EncResult) (l1 l2 : List AttemptRec) :
    lastSuccess b (l1 ++ l2) = lastSuccess (lastSuccess b l1) l2 := by
  induction l1 generalizing b with
  | nil => rfl
  | cons rec l ih =>
    cases hr : rec.toRes with
    | none => simp [lastSuccess, hr, ih]
    | some r => simp [lastSuccess, hr, ih]

/-- The quality loop's final `bestResult` is the record of its most recent
successful attempt (or the incoming best if none succeeded). -/
theorem qualityPhase_fst (att : ℚ → Nat → Option EncAttempt) (mb : Nat) (sf : ℚ)
    (qs : List Nat) (b : Option EncResult) :
    (qualityPhase att mb sf qs b).1 = lastSuccess b (qualityPhase att mb sf qs b).2 := by
  induction qs generalizing b with
  | nil => rfl
  | cons q qs ih =>
    cases ha : att sf q with
    | none => simp [qualityPhase, ha, lastSuccess, AttemptRec.toRes]
    | some a =>
      by_cases hbb : a.bytes ≤ mb
      · simp [qualityPhase, ha, hbb, lastSuccess, AttemptRec.toRes]
      · simp [qualityPhase, ha, hbb, lastSuccess, AttemptRec.toRes, ih]

/-- The scale loop's final `bestResult` is the record of its most recent
successful attempt (or the incoming best if none succeeded). -/
theorem scalePhase_fst (att : ℚ → Nat → Option EncAttempt) (mb : Nat)
    (cands : List ℚ) (sf : ℚ) (b : Option EncResult) :
    (scalePhase att mb cands sf b).1 = lastSuccess b (scalePhase att mb cands sf b).2 := by
  induction cands generalizing sf b with
  | nil => rfl
  | cons c cs ih =>
    by_cases hm : meetsBudget (qualityPhase att mb (min sf c) qualityLevels b).1 mb
    · simp [scalePhase, hm, ← qualityPhase_fst]
    · simp only [scalePhase, hm, Bool.false_eq_true, if_false, lastSuccess_append, ih,
        ← qualityPhase_fst]

/-- The quality loop ends with no `bestResult` exactly when it started with
none and every attempt it performed threw. -/
theorem qualityPhase_none_iff (att : ℚ → Nat → Option EncAttempt) (mb : Nat)
    (sf : ℚ) (qs : List Nat) (b : Option EncResult) :
    (qualityPhase att mb sf qs b).1 = none ↔
      (b = none ∧ ∀ rec ∈ (qualityPhase att mb sf qs b).2, rec.outcome = none) := by
  induction qs generalizing b with
  | nil => simp [qualityPhase]
  | cons q qs ih =>
    cases ha : att sf q with
    | none => simp [qualityPhase, ha]
    | some a =>
      by_cases hbb : a.bytes ≤ mb
      · simp [qualityPhase, ha, hbb]
      · simp [qualityPhase, ha, hbb, ih]

/-- The scale loop ends with no `bestResult` exactly when it started with none
and every attempt it performed threw. -/
theorem scalePhase_none_iff (att : ℚ → Nat → Option EncAttempt) (mb : Nat)
    (cands : List ℚ) (sf : ℚ) (b : Option EncResult) :
    (scalePhase att mb cands sf b).1 = none ↔
      (b = none ∧ ∀ rec ∈ (scalePhase att mb cands sf b).2, rec.outcome = none) := by
  induction cands generalizing sf b with
  | nil => simp [scalePhase]
  | cons c cs ih =>
    by_cases hm : meetsBudget (qualityPhase att mb (min sf c) qualityLevels b).1 mb
    · simp [scalePhase, hm, qualityPhase_none_iff]
    · simp only [scalePhase, hm, Bool.false_eq_true, if_false, List.mem_append]
      rw [ih, qualityPhase_none_iff]
      constructor
      · rintro ⟨⟨hb, h1⟩, h2⟩
        exact ⟨hb, fun rec hr => hr.elim (h1 rec) (h2 rec)⟩
      · rintro ⟨hb, h⟩
        exact ⟨⟨hb, fun rec hr => h rec (Or.inl hr)⟩, fun rec hr => h rec (Or.inr hr)⟩

/-- Claim C5: `encodeToFit` throws `EncodeUnavailable` exactly when every
attempt of the quality/scale search threw; as soon as one attempt produced an
encoded file the call returns an artifact, even when its byte size exceeds
`maxBytes`. -/
theorem claimC5_errorIff (att : ℚ → Nat → Option EncAttempt) (mb : Nat)
    (mle W0 H0 : Int) :
    encodeToFit att mb mle W0 H0 = none ↔
      ∀ rec ∈ encodeToFitAttempts att mb mle W0 H0, rec.outcome = none := by
  rw [encodeToFit, encodeToFitAttempts, encodeToFitSearch]
  by_cases hm : meetsBudget
      (qualityPhase att mb (initialScale mle W0 H0) qualityLevels none).1 mb
  · simp only [hm, if_true]
    rw [qualityPhase_none_iff]
    simp
  · simp only [hm, Bool.false_eq_true, if_false, List.mem_append]
    rw [scalePhase_none_iff, qualityPhase_none_iff]
    constructor
    · rintro ⟨⟨-, h1⟩, h2⟩
      exact fun rec hr => hr.elim (h1 rec) (h2 rec)
    · intro h
      exact ⟨⟨rfl, fun rec hr => h rec (Or.inl hr)⟩, fun rec hr => h rec (Or.inr hr)⟩

/-- The value `encodeToFit` returns is the record of the most recent
successful attempt of the whole search. -/
theorem encodeToFit_eq_lastSuccess (att : ℚ → Nat → Option EncAttempt) (mb : Nat)
    (mle W0 H0 : Int) :
    encodeToFit att mb mle W0 H0 =
      lastSuccess none (encodeToFitAttempts att mb mle W0 H0) := by
  rw [encodeToFit, encodeToFitAttempts, encodeToFitSearch]
  by_cases hm : meetsBudget
      (qualityPhase att mb (initialScale mle W0 H0) qualityLevels none).1 mb
  · simp only [hm, if_true]
    exact qualityPhase_fst ..
  · simp only [hm, Bool.false_eq_true, if_false, lastSuccess_append,
      ← qualityPhase_fst]
    exact scalePhase_fst ..

/-- Claim C2 amended: every attempt unconditionally overwrites the recorded
best, so `encodeToFit` returns the artifact of the most recent successful
attempt in search order — not the smallest one. -/
theorem claimC2_amended (att : ℚ → Nat → Option EncAttempt) (mb : Nat)
    (mle W0 H0 : Int) :
    encodeToFit att mb mle W0 H0 =
      lastSuccess none (encodeToFitAttempts att mb mle W0 H0) :=
  encodeToFit_eq_lastSuccess att mb mle W0 H0

/-- The counterexample oracle throws at every reduced scale. -/
theorem cexAtt_throw {sf : ℚ} (hsf : sf < 1) (q : Nat) : cexAtt sf q = none := by
  have hne : sf ≠ 1 := ne_of_lt hsf
  simp [cexAtt, hne]

/-- If the oracle throws at every reduced scale and the incoming best misses
the budget, the whole scale phase leaves the best unchanged. -/
theorem scalePhase_fst_of_throw (att : ℚ → Nat → Option EncAttempt) (mb : Nat)
    (b : Option EncResult) (hb : meetsBudget b mb = false)
    (h : ∀ sf q, sf < 1 → att sf q = none) :
    ∀ cands, (∀ c ∈ cands, c < 1) → ∀ sf, (scalePhase att mb cands sf b).1 = b := by
  intro cands
  induction cands with
  | nil => intro _ sf; rfl
  | cons c cs ih =>
    intro hc sf
    have hsf' : min sf c < 1 := lt_of_le_of_lt (min_le_right _ _) (hc c (by simp))
    have hq : qualityPhase att mb (min sf c) qualityLevels b =
        (b, [⟨min sf c, 95, none⟩]) := by
      rw [qualityLevels]
      simp [qualityPhase, h _ 95 hsf']
    rw [scalePhase]
    simp only [hq, hb, Bool.false_eq_true, if_false]
    exact ih (fun x hx => hc x (by simp [hx])) (min sf c)

/-- The quality phase of the C2 counterexample run: quality 95 gives 10 bytes,
quality 90 gives 20 bytes (overwriting the 10-byte record), quality 85
throws. -/
theorem cex_phase1 :
    qualityPhase cexAtt 5 1 qualityLevels none =
      (some ⟨20, 1, 1, 90, 1⟩,
       [⟨1, 95, some ⟨10, 1, 1⟩⟩, ⟨1, 90, some ⟨20, 1, 1⟩⟩, ⟨1, 85, none⟩]) := by
  norm_num [qualityLevels, qualityPhase, cexAtt]

/-- The C2 counterexample call returns the 20-byte artifact. -/
theorem cex_result : encodeToFit cexAtt 5 100 10 10 = some ⟨20, 1, 1, 90, 1⟩ := by
  have hs0 : initialScale 100 10 10 = 1 := by
    rw [initialScale, if_neg (by decide)]
  rw [encodeToFit, hs0]
  simp only [encodeToFitSearch]
  rw [cex_phase1]
  simp only [meetsBudget]
  norm_num
  exact scalePhase_fst_of_throw cexAtt 5 (some ⟨20, 1, 1, 90, 1⟩) (by simp [meetsBudget])
    (fun sf q hsf => cexAtt_throw hsf q) scaleLadder
    (by intro x hx
        simp [scaleLadder] at hx
        rcases hx with rfl | rfl | rfl | rfl | rfl | rfl | rfl | rfl | rfl <;> norm_num) 1

/-- The 10-byte attempt is among the attempts of the C2 counterexample call. -/
theorem cex_mem :
    (⟨1, 95, some ⟨10, 1, 1⟩⟩ : AttemptRec) ∈ encodeToFitAttempts cexAtt 5 100 10 10 := by
  have hs0 : initialScale 100 10 10 = 1 := by
    rw [initialScale, if_neg (by decide)]
  rw [encodeToFitAttempts, hs0]
  simp only [encodeToFitSearch]
  rw [cex_phase1]
  simp only [meetsBudget]
  norm_num

/-- Counterexample to claim C2: `bestResult = result` runs unconditionally
after every attempt, so a later larger attempt overwrites an earlier smaller
one.  With a budget of 5 bytes, an attempt ladder producing 10 bytes at
quality 95 and 20 bytes at quality 90 (everything else throwing) makes
`encodeToFit` return the 20-byte artifact, not the smaller 10-byte one. -/
theorem claimC2_counterexample : ¬ smallestResultClaim cexAtt 5 100 10 10 := by
  intro h
  have h20 := h _ cex_result _ cex_mem _ rfl
  exact absurd h20 (by decide)

/-- Every attempt of the quality loop runs at the loop's scale factor. -/
theorem qualityPhase_scale_eq (att : ℚ → Nat → Option EncAttempt) (mb : Nat)
    (sf : ℚ) (qs : List Nat) (b : Option EncResult) :
    ∀ rec ∈ (qualityPhase att mb sf qs b).2, rec.scale = sf := by
  induction qs generalizing b with
  | nil => intro rec hr; simp [qualityPhase] at hr
  | cons q qs ih =>
    intro rec hr
    cases ha : att sf q with
    | none =>
      simp [qualityPhase, ha] at hr
      rw [hr]
    | some a =>
      by_cases hbb : a.bytes ≤ mb
      · simp [qualityPhase, ha, hbb] at hr
        rw [hr]
      · simp only [qualityPhase, ha, hbb, if_neg, if_false] at hr
        rcases List.mem_cons.mp hr with rfl | hr'
        · rfl
        · exact ih _ rec hr'

/-- Every attempt of the scale loop runs at a scale factor at most the
incoming one. -/
theorem scalePhase_scale_le (att : ℚ → Nat → Option EncAttempt) (mb : Nat) :
    ∀ (cands : List ℚ) (sf : ℚ) (b : Option EncResult),
      ∀ rec ∈ (scalePhase att mb cands sf b).2, rec.scale ≤ sf := by
  intro cands
  induction cands with
  | nil => intro sf b rec hr; simp [scalePhase] at hr
  | cons c cs ih =>
    intro sf b rec hr
    simp only [scalePhase] at hr
    by_cases hm : meetsBudget (qualityPhase att mb (min sf c) qualityLevels b).1 mb = true
    · rw [if_pos hm] at hr
      rw [qualityPhase_scale_eq att mb (min sf c) qualityLevels b rec hr]
      exact min_le_left _ _
    · rw [if_neg hm, List.mem_append] at hr
      rcases hr with hr | hr
      · rw [qualityPhase_scale_eq att mb (min sf c) qualityLevels b rec hr]
        exact min_le_left _ _
      · exact le_trans (ih (min sf c) _ rec hr) (min_le_left _ _)

/-- A list of equal rationals is non-increasing. -/
theorem pairwise_ge_of_const {l : List ℚ} {c : ℚ} (h : ∀ x ∈ l, x = c) :
    l.Pairwise (· ≥ ·) := by
  induction l with
  | nil => exact List.Pairwise.nil
  | cons a l ih =>
    refine List.Pairwise.cons (fun y hy => ?_) (ih fun x hx => h x (List.mem_cons_of_mem a hx))
    rw [h a (List.mem_cons_self a l), h y (List.mem_cons_of_mem a hy)]

/-- The scale factors of the scale loop's attempts are non-increasing in
order. -/
theorem scalePhase_pairwise (att : ℚ → Nat → Option EncAttempt) (mb : Nat) :
    ∀ (cands : List ℚ) (sf : ℚ) (b : Option EncResult),
      ((scalePhase att mb cands sf b).2.map AttemptRec.scale).Pairwise (· ≥ ·) := by
  intro cands
  induction cands with
  | nil => intro sf b; simp [scalePhase]
  | cons c cs ih =>
    intro sf b
    simp only [scalePhase]
    by_cases hm : meetsBudget (qualityPhase att mb (min sf c) qualityLevels b).1 mb = true
    · rw [if_pos hm]
      refine pairwise_ge_of_const (c := min sf c) fun x hx => ?_
      obtain ⟨rec, hrec, rfl⟩ := List.mem_map.mp hx
      exact qualityPhase_scale_eq att mb _ _ _ rec hrec
    · rw [if_neg hm, List.map_append, List.pairwise_append]
      refine ⟨pairwise_ge_of_const (c := min sf c) fun x hx => ?_, ih _ _, ?_⟩
      · obtain ⟨rec, hrec, rfl⟩ := List.mem_map.mp hx
        exact qualityPhase_scale_eq att mb _ _ _ rec hrec
      · intro x hx y hy
        obtain ⟨rec, hrec, rfl⟩ := List.mem_map.mp hx
        obtain ⟨rec', hrec', rfl⟩ := List.mem_map.mp hy
        rw [qualityPhase_scale_eq att mb _ _ _ rec hrec]
        exact scalePhase_scale_le att mb _ _ _ rec' hrec'

/-- A successful `lastSuccess` value comes from a listed attempt or from the
incoming best. -/
theorem lastSuccess_eq_some {b : Option EncResult} {l : List AttemptRec}
    {r : EncResult} (h : lastSuccess b l = some r) :
    (∃ rec ∈ l, rec.toRes = some r) ∨ b = some r := by
  induction l generalizing b with
  | nil => exact Or.inr h
  | cons rec l ih =>
    cases hr : rec.toRes with
    | none =>
      simp only [lastSuccess, hr] at h
      rcases ih h with ⟨rec', h1, h2⟩ | h2
      · exact Or.inl ⟨rec', List.mem_cons_of_mem rec h1, h2⟩
      · exact Or.inr h2
    | some r' =>
      simp only [lastSuccess, hr] at h
      rcases ih h with ⟨rec', h1, h2⟩ | h2
      · exact Or.inl ⟨rec', List.mem_cons_of_mem rec h1, h2⟩
      · exact Or.inl ⟨rec, List.mem_cons_self rec l, hr.trans h2⟩

/-- A successful attempt's record carries the attempt's scale factor. -/
theorem toRes_scaleFactor {rec : AttemptRec} {r : EncResult}
    (h : rec.toRes = some r) : r.scaleFactor = rec.scale := by
  cases ho : rec.outcome with
  | none => simp [AttemptRec.toRes, ho] at h
  | some a =>
    simp only [AttemptRec.toRes, ho, Option.map_some'] at h
    rw [← Option.some_inj.mp h]

/-- Every attempt of one `encodeToFit` call runs at a scale at most the
initial scale. -/
theorem encodeToFitAttempts_scale_le (att : ℚ → Nat → Option EncAttempt)
    (mb : Nat) (mle W0 H0 : Int) :
    ∀ rec ∈ encodeToFitAttempts att mb mle W0 H0,
      rec.scale ≤ initialScale mle W0 H0 := by
  intro rec hr
  rw [encodeToFitAttempts, encodeToFitSearch] at hr
  by_cases hm : meetsBudget
      (qualityPhase att mb (initialScale mle W0 H0) qualityLevels none).1 mb
  · rw [if_pos hm] at hr
    exact le_of_eq (qualityPhase_scale_eq att mb _ _ _ rec hr)
  · simp only [hm, Bool.false_eq_true, if_false, List.mem_append] at hr
    rcases hr with hr | hr
    · exact le_of_eq (qualityPhase_scale_eq att mb _ _ _ rec hr)
    · exact scalePhase_scale_le att mb _ _ _ rec hr

/-- Claim C6: within one `encodeToFit` call the scale factors of successive
attempts never increase, starting from
`initialScale = min(1, maxLongEdge / max(width, height))`, and the returned
artifact's `scaleFactor` is the scale of its producing attempt, hence at most
the initial scale. -/
theorem claimC6_scaleMonotone (att : ℚ → Nat → Option EncAttempt) (mb : Nat)
    (mle W0 H0 : Int) (h : 0 < max W0 H0) :
    ((encodeToFitAttempts att mb mle W0 H0).map AttemptRec.scale).Pairwise (· ≥ ·) ∧
    (∀ rec ∈ encodeToFitAttempts att mb mle W0 H0,
        rec.scale ≤ initialScale mle W0 H0) ∧
    (∀ r, encodeToFit att mb mle W0 H0 = some r →
        r.scaleFactor ≤ initialScale mle W0 H0) ∧
    initialScale mle W0 H0 = min 1 ((mle : ℚ) / ((max W0 H0 : Int) : ℚ)) := by
  refine ⟨?_, encodeToFitAttempts_scale_le att mb mle W0 H0, ?_, ?_⟩
  · rw [encodeToFitAttempts, encodeToFitSearch]
    by_cases hm : meetsBudget
        (qualityPhase att mb (initialScale mle W0 H0) qualityLevels none).1 mb
    · rw [if_pos hm]
      refine pairwise_ge_of_const (c := initialScale mle W0 H0) fun x hx => ?_
      obtain ⟨rec, hrec, rfl⟩ := List.mem_map.mp hx
      exact qualityPhase_scale_eq att mb _ _ _ rec hrec
    · simp only [hm, Bool.false_eq_true, if_false, List.map_append, List.pairwise_append]
      refine ⟨pairwise_ge_of_const (c := initialScale mle W0 H0) fun x hx => ?_,
        scalePhase_pairwise att mb _ _ _, ?_⟩
      · obtain ⟨rec, hrec, rfl⟩ := List.mem_map.mp hx
        exact qualityPhase_scale_eq att mb _ _ _ rec hrec
      · intro x hx y hy
        obtain ⟨rec, hrec, rfl⟩ := List.mem_map.mp hx
        obtain ⟨rec', hrec', rfl⟩ := List.mem_map.mp hy
        rw [qualityPhase_scale_eq att mb _ _ _ rec hrec]
        exact scalePhase_scale_le att mb _ _ _ rec' hrec'
  · intro r hr
    rw [encodeToFit_eq_lastSuccess] at hr
    rcases lastSuccess_eq_some hr with ⟨rec, h1, h2⟩ | h2
    · rw [toRes_scaleFactor h2]
      exact encodeToFitAttempts_scale_le att mb mle W0 H0 rec h1
    · exact absurd h2 (by simp)
  · by_cases hml : mle < max W0 H0
    · rw [initialScale, if_pos hml, eq_comm, min_eq_right]
      rw [div_le_one (by exact_mod_cast h)]
      exact_mod_cast hml.le
    · rw [initialScale, if_neg hml, eq_comm, min_eq_left]
      rw [le_div_iff₀ (by exact_mod_cast h), one_mul]
      exact_mod_cast not_lt.mp hml

/-- Round of 20. -/
theorem jsRound_20 : jsRound (20 : ℚ) = 20 := jsRound_eval _ 20 (by norm_num) (by norm_num)

/-- Round of 60. -/
theorem jsRound_60 : jsRound (60 : ℚ) = 60 := jsRound_eval _ 60 (by norm_num) (by norm_num)

/-- Round of 45. -/
theorem jsRound_45 : jsRound (45 : ℚ) = 45 := jsRound_eval _ 45 (by norm_num) (by norm_num)

/-- Round of 25. -/
theorem jsRound_25 : jsRound (25 : ℚ) = 25 := jsRound_eval _ 25 (by norm_num) (by norm_num)

/-- Mapping over a filtered cons peels one conditional singleton. -/
theorem filter_map_cons {α β : Type} (F : α → Bool) (G : α → β) (r : α) (rs : List α) :
    (List.filter F (r :: rs)).map G =
      (if F r = true then [G r] else []) ++ (List.filter F rs).map G := by
  by_cases hF : F r = true <;> simp [List.filter_cons, hF]

/-- The crop planner's output for a 150×100 landscape image with
`minCropSize = 100`: header (20 px) and footer (25 px) fail the size guard,
bottom_right (45 px) fails it too, but left_edge and right_edge are emitted
with width 45 even though `45 < minCropSize × 0.5 = 50`. -/
theorem crops_code_150_100_100 : generateCropRegions 150 100 100 =
    [⟨"top_left", 0, 0, 60, 60⟩, ⟨"top_right", 90, 0, 60, 60⟩,
     ⟨"center", 45, 20, 60, 60⟩, ⟨"left_edge", 0, 0, 45, 100⟩,
     ⟨"right_edge", 105, 0, 45, 100⟩] := by
  norm_num [generateCropRegions, min_def, jsRound_20, jsRound_60, jsRound_45, jsRound_25]

/-- The claimed table's output for the same image: with the size guard
applied to left_edge and right_edge as the spec states, both are excluded. -/
theorem crops_claimed_150_100_100 :
    specCropsFiltered specCropTableClaimed 150 100 100 =
    [⟨"top_left", 0, 0, 60, 60⟩, ⟨"top_right", 90, 0, 60, 60⟩,
     ⟨"center", 45, 20, 60, 60⟩] := by
  norm_num [specCropsFiltered, specCropTableClaimed, specSizeOk, List.filter, min_def,
    jsRound_20, jsRound_60, jsRound_45, jsRound_25]

/-- Counterexample to claim C7: at `W = 150`, `H = 100`, `minCropSize = 100`
(landscape, `W = 1.5 · minCropSize`), the code emits left_edge and right_edge
with constraining width `45 < minCropSize × 0.5`, which the claimed inclusion
rules exclude. -/
theorem claimC7_counterexample : ¬ cropTableClaim := by
  intro h
  have heq := h 150 100 100 (by decide) (by decide)
  rw [crops_code_150_100_100, crops_claimed_150_100_100] at heq
  exact absurd heq (by decide)

/-- Claim C7 amended: the crop planner's region list equals the declarative
heuristic table filtered by the code's inclusion rules, in table order — the
`≥ minCropSize × 0.5` size guard applies to header, top_left, top_right,
center, footer and bottom_right (the latter also requiring landscape), while
left_edge and right_edge are gated only by landscape and
`W ≥ 1.5 · minCropSize`, with no size guard. -/
theorem claimC7_amended (w h m : Int) :
    generateCropRegions w h m = specCropsFiltered specCropTableAmended w h m := by
  rw [generateCropRegions, specCropsFiltered]
  by_cases hsmall : w < m ∨ h < m
  · rw [if_pos hsmall, if_pos hsmall]
  · rw [if_neg hsmall, if_neg hsmall]
    simp only [specCropTableAmended, filter_map_cons, List.filter_nil, List.map_nil,
      List.append_nil, Bool.and_eq_true, decide_eq_true_eq, specSizeOk,
      List.append_assoc]

/-- Witness for claim C6 with an always-throwing oracle on a 10×10 image. -/
theorem claimC6_scaleMonotone_witness :
    (0 : Int) < max 10 10 ∧
    (((encodeToFitAttempts (fun _ _ => none) 0 100 10 10).map
        AttemptRec.scale).Pairwise (· ≥ ·) ∧
     (∀ rec ∈ encodeToFitAttempts (fun _ _ => none) 0 100 10 10,
        rec.scale ≤ initialScale 100 10 10) ∧
     (∀ r, encodeToFit (fun _ _ => none) 0 100 10 10 = some r →
        r.scaleFactor ≤ initialScale 100 10 10) ∧
     initialScale 100 10 10 = min 1 ((100 : ℚ) / ((max 10 10 : Int) : ℚ))) :=
  ⟨by decide, claimC6_scaleMonotone (fun _ _ => none) 0 100 10 10 (by decide)⟩

/-- An error result of the tile encode loop is the error some listed tile's
encode threw. -/
theorem encodeTilesLoop_error_src {ε α : Type} (enc : Tile → Except ε α) :
    ∀ (l : List Tile) (e : ε), encodeTilesLoop enc l = Except.error e →
      ∃ tile ∈ l, enc tile = Except.error e := by
  intro l
  induction l with
  | nil => intro e h; simp [encodeTilesLoop] at h
  | cons tile rest ih =>
    intro e h
    cases he : enc tile with
    | error e' =>
      simp only [encodeTilesLoop, he, Except.error.injEq] at h
      subst h
      exact ⟨tile, List.mem_cons_self tile rest, he⟩
    | ok a =>
      cases hrest : encodeTilesLoop enc rest with
      | error e' =>
        simp only [encodeTilesLoop, he, hrest, Except.error.injEq] at h
        subst h
        obtain ⟨t, ht, het⟩ := ih e' hrest
        exact ⟨t, List.mem_cons_of_mem tile ht, het⟩
      | ok tl =>
        simp only [encodeTilesLoop, he, hrest] at h
        exact absurd h (by simp)

/-- If any listed tile's encode throws, the tile encode loop returns an
error. -/
theorem encodeTilesLoop_error_exists {ε α : Type} (enc : Tile → Except ε α) :
    ∀ l : List Tile, (∃ tile ∈ l, ∃ e, enc tile = Except.error e) →
      ∃ e, encodeTilesLoop enc l = Except.error e := by
  intro l
  induction l with
  | nil => rintro ⟨t, ht, -⟩; simp at ht
  | cons tile rest ih =>
    rintro ⟨t, ht, e, he⟩
    cases het : enc tile with
    | error e' => exact ⟨e', by simp [encodeTilesLoop, het]⟩
    | ok a =>
      rcases List.mem_cons.mp ht with rfl | ht'
      · rw [het] at he
        exact absurd he (by simp)
      · obtain ⟨e', hrest⟩ := ih ⟨t, ht', e, he⟩
        exact ⟨e', by simp [encodeTilesLoop, het, hrest]⟩

/-- The regions of the produced crops are exactly the planned regions whose
encode succeeded, in order. -/
theorem generateCropsLoop_regions {ε α : Type} (enc : CropRegion → Except ε α)
    (ext : String) :
    ∀ (rs : List CropRegion) (i : Nat),
      (generateCropsLoop enc ext rs i).map Crop.region =
        rs.filter (fun r => exceptOk (enc r)) := by
  intro rs
  induction rs with
  | nil => intro i; rfl
  | cons r rs ih =>
    intro i
    cases he : enc r with
    | ok a => simp [generateCropsLoop, he, List.filter_cons, exceptOk, ih]
    | error e => simp [generateCropsLoop, he, List.filter_cons, exceptOk, ih]

/-- Claim C8: an encoder error on any tile propagates out of the tile loop
unmodified (no tile list is returned, and the error is one some tile's encode
threw, and conversely any failing tile aborts the loop), while the crop loop
catches per-region errors: its result is exactly the successfully encoded
regions, the failed ones dropped and the loop continuing. -/
theorem claimC8_errorPolicy {ε α β : Type} (encT : Tile → Except ε α)
    (encC : CropRegion → Except ε β) (ext : String) (W H t o m : Int) :
    ((∃ e, generateTilesE encT W H t o = Except.error e) ↔
       ∃ tile ∈ generateTiles W H t o, ∃ e, encT tile = Except.error e) ∧
    (∀ e, generateTilesE encT W H t o = Except.error e →
       ∃ tile ∈ generateTiles W H t o, encT tile = Except.error e) ∧
    ((generateCrops encC ext W H m).map Crop.region =
       (generateCropRegions W H m).filter (fun r => exceptOk (encC r))) := by
  refine ⟨⟨?_, encodeTilesLoop_error_exists encT _⟩, ?_, ?_⟩
  · rintro ⟨e, he⟩
    obtain ⟨tile, ht, he'⟩ := encodeTilesLoop_error_src encT _ e he
    exact ⟨tile, ht, e, he'⟩
  · intro e he
    exact encodeTilesLoop_error_src encT _ e he
  · exact generateCropsLoop_regions encC ext _ 0

/-- The full tile list of the 100×50 example. -/
theorem tiles_100_50_64_16 :
    generateTiles 100 50 64 16 = [⟨0, 0, 0, 0, 64, 50⟩, ⟨0, 1, 36, 0, 52, 50⟩] := by
  simp only [generateTiles, gridRows_eq_gridCols, gridCols_50_64_16,
    gridCols_100_64_16, tileAt, tileOrigin, tileExtent]
  decide

/-- Witness for claim C8: an encoder failing on the second tile of the 100×50
example makes the tile loop return exactly that error. -/
theorem claimC8_errorPolicy_witness :
    (generateTilesE (fun tile => if tile.col = 1
        then Except.error 7 else Except.ok 0) 100 50 64 16 =
      Except.error (7 : Nat)) ∧
    (∃ tile ∈ generateTiles 100 50 64 16,
      (fun tile : Tile => if tile.col = 1
        then (Except.error 7 : Except Nat Nat) else Except.ok 0) tile =
        Except.error 7) :=
  have herr : generateTilesE (fun tile => if tile.col = 1
      then Except.error 7 else Except.ok 0) 100 50 64 16 =
        Except.error (7 : Nat) := by
    rw [generateTilesE, tiles_100_50_64_16]
    rfl
  ⟨herr,
   (claimC8_errorPolicy (fun tile : Tile => if tile.col = 1
       then (Except.error 7 : Except Nat Nat) else Except.ok 0)
     (fun _ : CropRegion => (Except.ok 0 : Except Nat Nat)) "webp"
     100 50 64 16 100).2.1 7 herr⟩

/-- The indices of the produced crops are consecutive from the start index. -/
theorem generateCropsLoop_idx {ε α : Type} (enc : CropRegion → Except ε α)
    (ext : String) :
    ∀ (rs : List CropRegion) (i : Nat),
      (generateCropsLoop enc ext rs i).map Crop.idx =
        List.range' i (generateCropsLoop enc ext rs i).length := by
  intro rs
  induction rs with
  | nil => intro i; rfl
  | cons r rs ih =>
    intro i
    cases he : enc r with
    | error e => simp [generateCropsLoop, he, ih]
    | ok a => simp [generateCropsLoop, he, ih, List.range']

/-- Claim C10: the numeric index embedded in each produced crop's filename
(`crop_<index>_<name>`) counts the crops that successfully encoded before it,
so the produced indices are exactly `0, 1, …, n−1` with no gaps, a failed
region consuming no index. -/
theorem claimC10_cropIndices {ε α : Type} (enc : CropRegion → Except ε α)
    (ext : String) (W H m : Int) :
    (generateCrops enc ext W H m).map Crop.idx =
      List.range (generateCrops enc ext W H m).length := by
  rw [generateCrops, List.range_eq_range']
  exact generateCropsLoop_idx enc ext _ 0

/-- Claim C9 evaluated at the failing input: a 100×100 source with region
`(0, 0, 50, 50)` and no scaling (`maxLongEdge = 1000 ≥ 100`, so the initial
scale is 1).  The `metadata()` call on the encode pipeline reports the input
header's 100×100, but the written tile is 50×50: the reported dimensions are
neither the written file's nor the post-extraction dimensions. -/
theorem claimC9_dimsBug :
    initialScale 1000 100 100 = 1 ∧
    originalDims ⟨100, 100⟩ (some (0, 0, 50, 50)) = (100, 100) ∧
    attemptReportedDims ⟨100, 100⟩ (some (0, 0, 50, 50)) 100 100 1 = (100, 100) ∧
    attemptWrittenDims ⟨100, 100⟩ (some (0, 0, 50, 50)) 100 100 1 = (50, 50) ∧
    attemptReportedDims ⟨100, 100⟩ (some (0, 0, 50, 50)) 100 100 1 ≠
      attemptWrittenDims ⟨100, 100⟩ (some (0, 0, 50, 50)) 100 100 1 := by
  refine ⟨?_, rfl, ?_, ?_, ?_⟩
  · rw [initialScale, if_neg (by decide)]
  · rw [attemptReportedDims, buildEncodePipeline, if_neg (by norm_num)]
    rfl
  · rw [attemptWrittenDims, buildEncodePipeline, if_neg (by norm_num)]
    rfl
  · simp only [attemptReportedDims, attemptWrittenDims, buildEncodePipeline]
    rw [if_neg (by norm_num : ¬ (1 : ℚ) < 1)]
    decide

end FigmaSmartImage
